import Mathlib

/-
Verification of the live-view synchronization engine of chdig
(src/view/processes_view.rs and src/view/navigation.rs), as a shallow
embedding in Lean 4.

Modelling conventions:
  - Rust f64 fields (elapsed) are modelled as Rat; `f64::total_cmp` on the
    concrete non-NaN values appearing here agrees with the Rat order.
  - HashMap String QueryProcess is modelled as an association list with
    unique keys (Items); insertion overwrites, iteration order is the list
    order (the spec states the order of the reconciled map is never relied
    upon).
  - Fallible row-field access (`block.get::<T,_>(i, name)?`) is modelled by
    Except String; a RawRow carries the per-field outcome of those getters.
  - The cursive TableView is modelled by its item list and selected row.
-/

set_option autoImplicit false

namespace Chdig

/-- Trace types for flamegraph requests, from src/interpreter (used in
processes_view.rs as TraceType::CPU / Real / Memory). -/
inductive TraceType
  | CPU
  | Real
  | Memory
deriving DecidableEq

/-- Events sent to the worker channel, as submitted by processes_view.rs
(UpdateProcessList, UpdateSummary, KillQuery, flamegraphs, explains). -/
inductive WorkerEvent
  | UpdateProcessList
  | UpdateSummary
  | ShowQueryFlameGraph (t : TraceType) (query_id : String)
  | ShowLiveQueryFlameGraph (query_id : String)
  | ExplainPlan (query : String)
  | ExplainPipeline (query : String)
  | KillQuery (query_id : String)
deriving DecidableEq

/-- A row record for a running query.  The fields are exactly those built in
ProcessesView::update_processes (processes_view.rs lines 124-140); the struct
itself lives in src/interpreter, outside src/, but every field is visible in
the struct literal in update_processes. -/
structure QueryProcess where
  host_name : String
  user : String
  threads : Nat
  memory : Int
  elapsed : Rat
  has_initial_query : Bool
  is_initial_query : Bool
  initial_query_id : String
  query_id : String
  normalized_query : String
  original_query : String
  profile_events : List (String × Nat)
  prev_elapsed : Option Rat
  prev_profile_events : Option (List (String × Nat))
deriving DecidableEq

/-- The reconciled map self.items : HashMap of query_id to QueryProcess,
modelled as an association list with unique keys. -/
def Items : Type := List (String × QueryProcess)

instance : DecidableEq Items := by
  unfold Items
  infer_instance

/-- Lookup by key (HashMap::get). -/
def Items.get : Items → String → Option QueryProcess
  | [], _ => none
  | p :: rest, k => if p.1 = k then some p.2 else Items.get rest k

/-- Removal of all bindings of a key, used to keep keys unique on insert. -/
def Items.erase : Items → String → Items
  | [], _ => []
  | p :: rest, k => if p.1 = k then Items.erase rest k else p :: Items.erase rest k

/-- Insertion (HashMap::insert): overwrites any existing binding of the key. -/
def Items.insert (m : Items) (k : String) (v : QueryProcess) : Items :=
  (k, v) :: Items.erase m k

/-- The values stored in the map, in iteration order. -/
def Items.values (m : Items) : List QueryProcess :=
  List.map (fun p => p.2) m

deriving instance DecidableEq for Except

/-- One fetched raw row, as seen through the fallible typed getters used in
update_processes: each field holds the outcome of the corresponding
`processes.get::<T,_>(i, name)` call (Except.error models a missing field or
a wrong shape). -/
structure RawRow where
  host_name : Except String String
  user : Except String String
  thread_ids : Except String (List Nat)
  peak_memory_usage : Except String Int
  elapsed : Except String Rat
  has_initial_query : Except String Nat
  is_initial_query : Except String Nat
  initial_query_id : Except String String
  query_id : Except String String
  normalized_query : Except String String
  original_query : Except String String
  profile_events : Except String (List (String × Nat))
deriving DecidableEq

/-- Decoding of one raw row into a fresh QueryProcess, following the struct
literal in update_processes (processes_view.rs lines 124-140): any failing
field getter aborts the whole call via the ? operator; prev fields start
empty. -/
def decodeRow (r : RawRow) : Except String QueryProcess :=
  match r.host_name with
  | Except.error e => Except.error e
  | Except.ok host_name =>
  match r.user with
  | Except.error e => Except.error e
  | Except.ok user =>
  match r.thread_ids with
  | Except.error e => Except.error e
  | Except.ok thread_ids =>
  match r.peak_memory_usage with
  | Except.error e => Except.error e
  | Except.ok peak_memory_usage =>
  match r.elapsed with
  | Except.error e => Except.error e
  | Except.ok elapsed =>
  match r.has_initial_query with
  | Except.error e => Except.error e
  | Except.ok has_initial_query =>
  match r.is_initial_query with
  | Except.error e => Except.error e
  | Except.ok is_initial_query =>
  match r.initial_query_id with
  | Except.error e => Except.error e
  | Except.ok initial_query_id =>
  match r.query_id with
  | Except.error e => Except.error e
  | Except.ok query_id =>
  match r.normalized_query with
  | Except.error e => Except.error e
  | Except.ok normalized_query =>
  match r.original_query with
  | Except.error e => Except.error e
  | Except.ok original_query =>
  match r.profile_events with
  | Except.error e => Except.error e
  | Except.ok profile_events =>
  Except.ok
    { host_name := host_name
      user := user
      threads := thread_ids.length
      memory := peak_memory_usage
      elapsed := elapsed
      has_initial_query := has_initial_query = 1
      is_initial_query := is_initial_query = 1
      initial_query_id := initial_query_id
      query_id := query_id
      normalized_query := normalized_query
      original_query := original_query
      profile_events := profile_events
      prev_elapsed := none
      prev_profile_events := none }

/-- The query_id of a successfully decoded row, used to speak about the
identities carried by a fresh row set. -/
def decodeId (r : RawRow) : Option String :=
  Option.map (fun qp => qp.query_id) (decodeRow r).toOption

/-- The prev carry-forward of update_processes (lines 142-145): if the prior
map held a record with the same query_id, copy its cumulative fields
(elapsed, profile events) into the fresh record's previous side-channel. -/
def withPrev (prev_items : Items) (qp : QueryProcess) : QueryProcess :=
  match prev_items.get qp.query_id with
  | some prev_item =>
      { qp with
        prev_elapsed := some prev_item.elapsed
        prev_profile_events := some prev_item.profile_events }
  | none => qp

/-- The decode-and-install loop of update_processes (lines 123-149): rows are
decoded in order and installed into the accumulating map; the first decode
failure aborts the loop, returning the map built so far together with the
error. -/
def reconcileRows (prev_items : Items) : List RawRow → Items → Items × Option String
  | [], acc => (acc, none)
  | r :: rest, acc =>
      match decodeRow r with
      | Except.error e => (acc, some e)
      | Except.ok qp =>
          let qp2 := withPrev prev_items qp
          reconcileRows prev_items rest (acc.insert qp2.query_id qp2)

/-- The UI-visible state of ProcessesView: the reconciled map, the drill-down
filter (self.query_id), the grouping flag, and the inner TableView modelled
by its item list and selected row. -/
structure PViewState where
  items : Items
  query_id : Option String
  group_by : Bool
  tableItems : List QueryProcess
  tableSelected : Option Nat
deriving DecidableEq

/-- The part of the shared context visible to update_processes and the
poller: the processes slot (taken, hence Option) and whether try_lock
succeeds this tick. -/
structure Context where
  processes : Option (List RawRow)
  lockAvailable : Bool
deriving DecidableEq

/-- ProcessesView::update_table (lines 156-180): rebuild the displayed item
list from the reconciled map, applying drill-down (initial_query_id equals
the selected query_id) or, absent a drill-down, the group_by filter that
skips non-initial queries; if the table was empty, select row 0. -/
def tableItemsOf (s : PViewState) : List QueryProcess :=
  match s.query_id with
  | some qid =>
      List.filter (fun qp => qp.initial_query_id == qid) s.items.values
  | none =>
      List.filter (fun qp => !(s.group_by && !qp.is_initial_query)) s.items.values

/-- Installation of the rebuilt item list (processes_view.rs lines 172-179):
if the table was empty, also select row 0. -/
def update_table (s : PViewState) : PViewState :=
  if s.tableItems.isEmpty then
    { s with tableItems := tableItemsOf s, tableSelected := some 0 }
  else
    { s with tableItems := tableItemsOf s }

/-- ProcessesView::update_processes (lines 112-154): on lock contention
return Ok with nothing changed; otherwise take the previous map out of
self.items, take the processes slot out of the context, decode-and-install
the fresh rows (aborting on the first decode failure), and on success
rebuild the table. -/
def update_processes (ctx : Context) (s : PViewState) :
    Context × PViewState × Option String :=
  if ctx.lockAvailable = false then (ctx, s, none)
  else
    let prev_items := s.items
    let ctx2 : Context := { ctx with processes := none }
    match ctx.processes with
    | none => (ctx2, update_table { s with items := [] }, none)
    | some rows =>
        match reconcileRows prev_items rows [] with
        | (newItems, some e) => (ctx2, { s with items := newItems }, some e)
        | (newItems, none) => (ctx2, update_table { s with items := newItems }, none)

/-- One iteration of the background loop spawned by ProcessesView::start
(lines 187-196): on a successful try_lock submit the two refresh events, on
contention submit nothing and skip the tick. -/
def poller_tick (lockAvailable : Bool) : List WorkerEvent :=
  if lockAvailable then [WorkerEvent.UpdateProcessList, WorkerEvent.UpdateSummary]
  else []

/-- The sort columns of the processes table (enum QueryProcessesColumn). -/
inductive QueryProcessesColumn
  | HostName
  | Cpu
  | User
  | Threads
  | Memory
  | DiskIO
  | NetIO
  | Elapsed
  | QueryId
  | Query
deriving DecidableEq

/-- Sum of the values of a profile-event counter map. -/
def profileTotal (m : List (String × Nat)) : Nat :=
  List.sum (List.map (fun p => p.2) m)

/-- Modelled from the spec: the derived metric methods cpu(), disk_io() and
net_io() of QueryProcess live in src/interpreter, which is not under src/;
per the spec they are instantaneous rates computed lazily from the pair of
cumulative and previous counters. The selection of the concrete counters is
abstracted as the total of the profile-event counters; the claims settled
below do not depend on that selection. -/
def QueryProcess.counterRate (q : QueryProcess) : Int :=
  (profileTotal q.profile_events : Int) -
    (profileTotal (q.prev_profile_events.getD []) : Int)

/-- Modelled from the spec: CPU usage rate, see QueryProcess.counterRate. -/
def QueryProcess.cpu (q : QueryProcess) : Int :=
  q.counterRate

/-- Modelled from the spec: disk read/write rate, see
QueryProcess.counterRate. -/
def QueryProcess.disk_bytes (q : QueryProcess) : Int :=
  q.counterRate

/-- Modelled from the spec: network send/receive rate, see
QueryProcess.counterRate. -/
def QueryProcess.net_bytes (q : QueryProcess) : Int :=
  q.counterRate

/-- Total-order comparison on a linearly ordered type; models Rust's
Ord::cmp on strings and integers and f64::total_cmp on the (non-NaN)
rational values used here. -/
def cmpv {α : Type} [LinearOrder α] (x y : α) : Ordering :=
  if x < y then Ordering.lt else if x = y then Ordering.eq else Ordering.gt

/-- TableViewItem::cmp for QueryProcess (processes_view.rs lines 70-87): the
comparison used to sort the table compares exactly the value of the active
column. -/
def QueryProcess.cmpCol (a b : QueryProcess) : QueryProcessesColumn → Ordering
  | QueryProcessesColumn.HostName => cmpv a.host_name b.host_name
  | QueryProcessesColumn.Cpu => cmpv a.cpu b.cpu
  | QueryProcessesColumn.User => cmpv a.user b.user
  | QueryProcessesColumn.Threads => cmpv a.threads b.threads
  | QueryProcessesColumn.Memory => cmpv a.memory b.memory
  | QueryProcessesColumn.DiskIO => cmpv a.disk_bytes b.disk_bytes
  | QueryProcessesColumn.NetIO => cmpv a.net_bytes b.net_bytes
  | QueryProcessesColumn.Elapsed => cmpv a.elapsed b.elapsed
  | QueryProcessesColumn.QueryId => cmpv a.query_id b.query_id
  | QueryProcessesColumn.Query => cmpv a.normalized_query b.normalized_query

/-- The value of the active column that QueryProcess.cmpCol compares,
expressed as an equality relation between two rows. -/
def colEq (a b : QueryProcess) : QueryProcessesColumn → Prop
  | QueryProcessesColumn.HostName => a.host_name = b.host_name
  | QueryProcessesColumn.Cpu => a.cpu = b.cpu
  | QueryProcessesColumn.User => a.user = b.user
  | QueryProcessesColumn.Threads => a.threads = b.threads
  | QueryProcessesColumn.Memory => a.memory = b.memory
  | QueryProcessesColumn.DiskIO => a.disk_bytes = b.disk_bytes
  | QueryProcessesColumn.NetIO => a.net_bytes = b.net_bytes
  | QueryProcessesColumn.Elapsed => a.elapsed = b.elapsed
  | QueryProcessesColumn.QueryId => a.query_id = b.query_id
  | QueryProcessesColumn.Query => a.normalized_query = b.normalized_query

/-- Events of the kill interaction: the K keypress with the currently
selected row's query_id (none when no row is selected), and the two buttons
of the confirmation dialog. -/
inductive KillEvent
  | pressK (selected : Option String)
  | affirm
  | cancel
deriving DecidableEq

/-- State of the kill interaction: the query_id the confirmation dialog is
open for, if any. -/
structure KillState where
  dialog : Option String
deriving DecidableEq

/-- The kill flow of ProcessesView::on_event for Char K (processes_view.rs
lines 411-446): the keypress only schedules the confirmation dialog via
cb_sink (submitting nothing); the affirmative button sends
WorkerEvent::KillQuery for the captured query_id and pops the dialog; Cancel
only pops the dialog.  The step returns the new state and the worker events
submitted during the step. -/
def killStep (s : KillState) : KillEvent → KillState × List WorkerEvent
  | KillEvent.pressK none => (s, [])
  | KillEvent.pressK (some qid) => ({ dialog := some qid }, [])
  | KillEvent.affirm =>
      match s.dialog with
      | some qid => ({ dialog := none }, [WorkerEvent.KillQuery qid])
      | none => (s, [])
  | KillEvent.cancel => ({ dialog := none }, [])

/-- The panel kinds of navigation.rs. -/
inductive PanelKind
  | processes
  | merges
  | replication_queue
  | replicated_fetches
deriving DecidableEq

/-- The registered name each panel is installed under (with_name in
navigation.rs). -/
def PanelKind.name : PanelKind → String
  | PanelKind.processes => "processes"
  | PanelKind.merges => "merges"
  | PanelKind.replication_queue => "replication_queue"
  | PanelKind.replicated_fetches => "replicated_fetches"

/-- One layer of the cursive screen holding a named panel view; viewId
numbers the constructed view (and its poller), so that a fresh construction
is observable. -/
structure Layer where
  name : String
  kind : PanelKind
  viewId : Nat
deriving DecidableEq

/-- The cursive screen: the layer stack plus a counter of constructed views,
incremented whenever a new panel view (and its poller) is built. -/
structure Screen where
  layers : List Layer
  nextViewId : Nat
deriving DecidableEq

/-- Cursive::find_name with a downcast to the panel's view type: true when a
layer with the given registered name and panel kind is on the stack. -/
def findName (sc : Screen) (k : PanelKind) (nm : String) : Bool :=
  List.any sc.layers (fun l => l.name == nm && l.kind == k)

/-- The show_clickhouse_* functions of navigation.rs (they differ only in
panel kind and name): if find_name finds an instance, return immediately;
otherwise pop every layer and install a freshly constructed panel view. -/
def show_panel (sc : Screen) (k : PanelKind) : Screen :=
  if findName sc k k.name then sc
  else
    { layers := [{ name := k.name, kind := k, viewId := sc.nextViewId }]
      nextViewId := sc.nextViewId + 1 }

/-- A terminal size (cursive Vec2). -/
structure Vec2 where
  x : Nat
  y : Nat
deriving DecidableEq

/-- The layout-relevant state of ProcessesView: self.last_size and the size
last handed to the inner table's layout. -/
structure LayoutState where
  last_size : Vec2
  tableLayoutSize : Option Vec2
deriving DecidableEq

/-- ProcessesView::layout (processes_view.rs lines 273-281): store the size,
assert that its height exceeds 2 (modelled as none on assertion failure),
subtract 2 from the stored height for header and borders, and lay out the
inner table with the original size. -/
def layout (s : LayoutState) (size : Vec2) : Option LayoutState :=
  let s1 := { s with last_size := size }
  if s1.last_size.y > 2 then
    some
      { s1 with
        last_size := { x := s1.last_size.x, y := s1.last_size.y - 2 }
        tableLayoutSize := some size }
  else none

/-- Number of live instances of a panel on the screen (layers matching its
registered name and view type). -/
def countPanel (sc : Screen) (k : PanelKind) : Nat :=
  (List.filter (fun l => l.name == k.name && l.kind == k) sc.layers).length

/- Concrete instances used to evaluate the theorems below on executable
inputs. -/

/-- A raw row whose field getters all succeed, with the given identity,
parent identity, elapsed seconds, is_initial_query flag and profile
events. -/
def rawRowMk (qid iqid : String) (el : Rat) (iiq : Nat)
    (pe : List (String × Nat)) : RawRow :=
  { host_name := Except.ok "host"
    user := Except.ok "default"
    thread_ids := Except.ok [1, 2]
    peak_memory_usage := Except.ok 100
    elapsed := Except.ok el
    has_initial_query := Except.ok 1
    is_initial_query := Except.ok iiq
    initial_query_id := Except.ok iqid
    query_id := Except.ok qid
    normalized_query := Except.ok "select 1"
    original_query := Except.ok "SELECT 1"
    profile_events := Except.ok pe }

/-- Snapshot 1 row for identity X with cumulative elapsed 10. -/
def rowX1 : RawRow := rawRowMk "X" "X" 10 1 [("Q", 10)]

/-- Snapshot 2 row for identity X with cumulative elapsed 25. -/
def rowX2 : RawRow := rawRowMk "X" "X" 25 1 [("Q", 30)]

/-- A row for a different identity Y. -/
def rowY : RawRow := rawRowMk "Y" "Y" 7 1 [("Q", 5)]

/-- A raw row whose query_id getter fails: a decode failure. -/
def badRow : RawRow :=
  { rawRowMk "Z" "Z" 1 1 [] with query_id := Except.error "no query_id" }

/-- The record obtained by decoding rowX1 on first sighting. -/
def pX : QueryProcess :=
  { host_name := "host"
    user := "default"
    threads := 2
    memory := 100
    elapsed := 10
    has_initial_query := true
    is_initial_query := true
    initial_query_id := "X"
    query_id := "X"
    normalized_query := "select 1"
    original_query := "SELECT 1"
    profile_events := [("Q", 10)]
    prev_elapsed := none
    prev_profile_events := none }

/-- The record for X after the second reconciliation: current elapsed 25,
previous elapsed 10 carried over from pX. -/
def vX : QueryProcess :=
  { pX with
    elapsed := 25
    profile_events := [("Q", 30)]
    prev_elapsed := some 10
    prev_profile_events := some [("Q", 10)] }

/-- An empty view state, as built by ProcessesView::new. -/
def sEmpty : PViewState :=
  { items := [], query_id := none, group_by := true
    tableItems := [], tableSelected := none }

/-- A context whose processes slot holds the first snapshot. -/
def ctxA : Context := { processes := some [rowX1], lockAvailable := true }

/-- The view state after reconciling the first snapshot. -/
def s1 : PViewState := (update_processes ctxA sEmpty).2.1

/-- A context whose processes slot holds the second snapshot for X. -/
def ctxB : Context := { processes := some [rowX2], lockAvailable := true }

/-- A context whose processes slot holds a snapshot mentioning only Y. -/
def ctxC : Context := { processes := some [rowY], lockAvailable := true }

/-- A view state already holding a reconciled record for X, with a
non-empty displayed table. -/
def sX : PViewState :=
  { items := [("X", pX)], query_id := none, group_by := true
    tableItems := [pX], tableSelected := some 0 }

/-- A context whose fresh rows contain a decode failure after one good
row. -/
def ctxE : Context := { processes := some [rowY, badRow], lockAvailable := true }

/-- A context whose processes slot has not been filled (no refresh has
completed). -/
def ctxN : Context := { processes := none, lockAvailable := true }

/-- A contended context: try_lock fails this tick. -/
def ctxL : Context := { processes := some [rowY], lockAvailable := false }

/-- Top-level row A of the drill-down example (parent A). -/
def qpA : QueryProcess :=
  { pX with query_id := "A", initial_query_id := "A", is_initial_query := true }

/-- Child row B of the drill-down example (parent A). -/
def qpB : QueryProcess :=
  { pX with query_id := "B", initial_query_id := "A", is_initial_query := false }

/-- Top-level row C of the drill-down example (parent C). -/
def qpC : QueryProcess :=
  { pX with query_id := "C", initial_query_id := "C", is_initial_query := true }

/-- A view state drilled down into identity A over rows A, B, C. -/
def sDrill : PViewState :=
  { items := [("A", qpA), ("B", qpB), ("C", qpC)], query_id := some "A"
    group_by := false, tableItems := [qpA], tableSelected := some 0 }

/-- Two distinct rows with equal elapsed values and distinct identities. -/
def qa : QueryProcess := { pX with query_id := "a", elapsed := 5 }

/-- See qa: same elapsed, different identity. -/
def qb : QueryProcess := { pX with query_id := "b", elapsed := 5 }

/-- A kill-flow state whose confirmation dialog is open for query q1. -/
def ksOpen : KillState := { dialog := some "q1" }

/-- An empty cursive screen. -/
def sc0 : Screen := { layers := [], nextViewId := 0 }

/-- A layout state before any layout call. -/
def ls0 : LayoutState :=
  { last_size := { x := 1, y := 1 }, tableLayoutSize := none }

theorem Items.get_erase_ne (m : Items) (k k' : String) (h : k' ≠ k) :
    Items.get (Items.erase m k) k' = Items.get m k' := by
  induction m with
  | nil => rfl
  | cons p rest ih =>
      simp only [Items.erase, Items.get]
      by_cases hp : p.1 = k
      · have hne : ¬ p.1 = k' := by
          rw [hp]
          exact fun hh => h hh.symm
        rw [if_pos hp, if_neg hne, ih]
      · rw [if_neg hp]
        simp only [Items.get]
        by_cases hq : p.1 = k'
        · rw [if_pos hq, if_pos hq]
        · rw [if_neg hq, if_neg hq, ih]

theorem Items.get_insert (m : Items) (k : String) (v : QueryProcess) (k' : String) :
    Items.get (Items.insert m k v) k' = if k = k' then some v else Items.get m k' := by
  by_cases hk : k = k'
  · simp [Items.insert, Items.get, hk]
  · simp [Items.insert, Items.get, hk,
      Items.get_erase_ne m k k' (fun hh => hk hh.symm)]

theorem Items.get_nil (k : String) : Items.get [] k = none := rfl

theorem withPrev_fields (prev : Items) (qp : QueryProcess) :
    (withPrev prev qp).query_id = qp.query_id ∧
    (withPrev prev qp).elapsed = qp.elapsed ∧
    (withPrev prev qp).profile_events = qp.profile_events := by
  unfold withPrev
  cases Items.get prev qp.query_id <;> exact ⟨rfl, rfl, rfl⟩

theorem withPrev_prev (prev : Items) (qp : QueryProcess)
    (h0 : qp.prev_elapsed = none) (h1 : qp.prev_profile_events = none) :
    (∀ p, Items.get prev qp.query_id = some p →
        (withPrev prev qp).prev_elapsed = some p.elapsed ∧
        (withPrev prev qp).prev_profile_events = some p.profile_events) ∧
    (Items.get prev qp.query_id = none →
        (withPrev prev qp).prev_elapsed = none ∧
        (withPrev prev qp).prev_profile_events = none) := by
  unfold withPrev
  cases hp : Items.get prev qp.query_id with
  | none =>
      refine ⟨fun p hps => ?_, fun _ => ⟨h0, h1⟩⟩
      cases hps
  | some p0 =>
      refine ⟨fun p hps => ?_, fun hn => ?_⟩
      · cases hps
        exact ⟨rfl, rfl⟩
      · cases hn

theorem decodeRow_ok_shape (r : RawRow) (qp : QueryProcess)
    (h : decodeRow r = Except.ok qp) :
    qp.prev_elapsed = none ∧ qp.prev_profile_events = none := by
  unfold decodeRow at h
  repeat' split at h
  all_goals first
    | exact Except.noConfusion h
    | (cases h; exact ⟨rfl, rfl⟩)

theorem update_table_items (s : PViewState) :
    (update_table s).items = s.items := by
  unfold update_table
  split <;> rfl

theorem reconcileRows_mem (prev : Items) (rows : List RawRow) :
    ∀ (acc m : Items) (err : Option String),
      reconcileRows prev rows acc = (m, err) →
      ∀ k v, Items.get m k = some v →
        Items.get acc k = some v ∨
        ∃ r ∈ rows, ∃ qp, decodeRow r = Except.ok qp ∧ qp.query_id = k ∧
          v = withPrev prev qp := by
  induction rows with
  | nil =>
      intro acc m err heq k v hv
      unfold reconcileRows at heq
      injection heq with h1 h2
      subst h1
      exact Or.inl hv
  | cons r rest ih =>
      intro acc m err heq k v hv
      unfold reconcileRows at heq
      cases hd : decodeRow r with
      | error e =>
          rw [hd] at heq
          injection heq with h1 h2
          subst h1
          exact Or.inl hv
      | ok qp =>
          rw [hd] at heq
          have hstep := ih _ m err heq k v hv
          cases hstep with
          | inl hacc =>
              rw [Items.get_insert] at hacc
              by_cases hk : (withPrev prev qp).query_id = k
              · rw [if_pos hk] at hacc
                injection hacc with hv2
                refine Or.inr ⟨r, List.mem_cons_self r rest, qp, hd, ?_, hv2.symm⟩
                rw [← (withPrev_fields prev qp).1]
                exact hk
              · rw [if_neg hk] at hacc
                exact Or.inl hacc
          | inr hex =>
              obtain ⟨r', hr', hrest⟩ := hex
              exact Or.inr ⟨r', List.mem_cons_of_mem r hr', hrest⟩

theorem reconcileRows_complete (prev : Items) (rows : List RawRow) :
    ∀ (acc m : Items),
      reconcileRows prev rows acc = (m, none) →
      ∀ k, ((Items.get acc k).isSome = true ∨ ∃ r ∈ rows, decodeId r = some k) →
        (Items.get m k).isSome = true := by
  induction rows with
  | nil =>
      intro acc m heq k hk
      unfold reconcileRows at heq
      injection heq with h1 h2
      subst h1
      cases hk with
      | inl h => exact h
      | inr h =>
          obtain ⟨r, hr, _⟩ := h
          cases hr
  | cons r rest ih =>
      intro acc m heq k hk
      unfold reconcileRows at heq
      cases hd : decodeRow r with
      | error e =>
          rw [hd] at heq
          injection heq with h1 h2
          cases h2
      | ok qp =>
          rw [hd] at heq
          refine ih _ m heq k ?_
          cases hk with
          | inl h =>
              left
              rw [Items.get_insert]
              by_cases hkk : (withPrev prev qp).query_id = k
              · rw [if_pos hkk]
                rfl
              · rw [if_neg hkk]
                exact h
          | inr h =>
              obtain ⟨r', hr', hid⟩ := h
              cases List.mem_cons.mp hr' with
              | inl hre =>
                  subst hre
                  left
                  have hqid : qp.query_id = k := by
                    unfold decodeId at hid
                    rw [hd] at hid
                    injection hid
                  rw [Items.get_insert,
                    if_pos (by rw [(withPrev_fields prev qp).1]; exact hqid)]
                  rfl
              | inr hmem =>
                  right
                  exact ⟨r', hmem, hid⟩

theorem update_table_tableItems (s : PViewState) :
    (update_table s).tableItems = tableItemsOf s := by
  unfold update_table
  split <;> rfl

theorem tableItemsOf_nil (s : PViewState) (h : s.items = []) :
    tableItemsOf s = [] := by
  unfold tableItemsOf
  cases hq : s.query_id
  · rw [h]
    rfl
  · rw [h]
    rfl

theorem update_processes_of_locked (ctx : Context) (s : PViewState)
    (h : ctx.lockAvailable = false) :
    update_processes ctx s = (ctx, s, none) := by
  unfold update_processes
  rw [if_pos h]

theorem update_processes_of_none (ctx : Context) (s : PViewState)
    (hlock : ctx.lockAvailable = true) (hnone : ctx.processes = none) :
    update_processes ctx s =
      ({ ctx with processes := none }, update_table { s with items := [] }, none) := by
  unfold update_processes
  rw [if_neg (by simp [hlock]), hnone]

theorem update_processes_of_some_err (ctx : Context) (s : PViewState)
    (rows : List RawRow) (newItems : Items) (e : String)
    (hlock : ctx.lockAvailable = true) (hrows : ctx.processes = some rows)
    (hrec : reconcileRows s.items rows [] = (newItems, some e)) :
    update_processes ctx s =
      ({ ctx with processes := none }, { s with items := newItems }, some e) := by
  unfold update_processes
  rw [if_neg (by simp [hlock]), hrows]
  simp only [hrec]

theorem update_processes_of_some_ok (ctx : Context) (s : PViewState)
    (rows : List RawRow) (newItems : Items)
    (hlock : ctx.lockAvailable = true) (hrows : ctx.processes = some rows)
    (hrec : reconcileRows s.items rows [] = (newItems, none)) :
    update_processes ctx s =
      ({ ctx with processes := none }, update_table { s with items := newItems },
        none) := by
  unfold update_processes
  rw [if_neg (by simp [hlock]), hrows]
  simp only [hrec]

/-- Claim C1: reconciliation carries forward prior cumulative values.  On a
successful refresh over fresh rows, every record of the new reconciled map
whose identity was present in the previous map has that prior record's
cumulative fields (elapsed, profile events) in its previous side-channel,
every record whose identity was absent has an empty previous side-channel,
and every record's current cumulative fields come from a fresh decoded
row with its identity. -/
theorem update_processes_carries_previous
    (ctx : Context) (s : PViewState) (rows : List RawRow)
    (hlock : ctx.lockAvailable = true)
    (hrows : ctx.processes = some rows)
    (hok : (update_processes ctx s).2.2 = none)
    (k : String) (v : QueryProcess)
    (hv : Items.get ((update_processes ctx s).2.1).items k = some v) :
    (∀ p, Items.get s.items k = some p →
        v.prev_elapsed = some p.elapsed ∧
        v.prev_profile_events = some p.profile_events) ∧
    (Items.get s.items k = none →
        v.prev_elapsed = none ∧ v.prev_profile_events = none) ∧
    (∃ r ∈ rows, ∃ qp, decodeRow r = Except.ok qp ∧ qp.query_id = k ∧
        v.elapsed = qp.elapsed ∧ v.profile_events = qp.profile_events) := by
  rcases hrec : reconcileRows s.items rows [] with ⟨newItems, err⟩
  cases err with
  | some e =>
      have hu := update_processes_of_some_err ctx s rows newItems e hlock hrows hrec
      rw [hu] at hok
      simp at hok
  | none =>
      have hu := update_processes_of_some_ok ctx s rows newItems hlock hrows hrec
      have hitems : ((update_processes ctx s).2.1).items = newItems := by
        rw [hu]
        exact update_table_items { s with items := newItems }
      rw [hitems] at hv
      have hmem := reconcileRows_mem s.items rows [] newItems none hrec k v hv
      cases hmem with
      | inl h => exact absurd h (by simp [Items.get])
      | inr hex =>
          obtain ⟨r, hr, qp, hd, hqid, hveq⟩ := hex
          have hshape := decodeRow_ok_shape r qp hd
          have hwp := withPrev_prev s.items qp hshape.1 hshape.2
          rw [hqid] at hwp
          subst hveq
          exact ⟨hwp.1, hwp.2,
            ⟨r, hr, qp, hd, hqid, (withPrev_fields s.items qp).2.1,
              (withPrev_fields s.items qp).2.2⟩⟩

/-- Witness for C1: identity X has cumulative elapsed 10 in the first
snapshot and 25 in the second; after the second reconciliation its record vX
has previous elapsed 10 (the cumulative fields of the prior record pX) and
current elapsed 25. -/
theorem update_processes_carries_previous_witness :
    ctxB.lockAvailable = true ∧
    Items.get s1.items "X" = some pX ∧
    (vX.prev_elapsed = some pX.elapsed ∧
      vX.prev_profile_events = some pX.profile_events) ∧
    pX.elapsed = 10 ∧ vX.elapsed = 25 :=
  ⟨rfl, by decide,
    (update_processes_carries_previous ctxB s1 [rowX2] rfl rfl (by decide)
      "X" vX (by decide)).1 pX (by decide),
    by decide, by decide⟩

/-- Claim C2: disappearance removes rows.  On a successful refresh over
fresh rows, the key set of the new reconciled map is exactly the set of
identities of the successfully decoded fresh rows; in particular an
identity present before but absent from the fresh rows is gone. -/
theorem update_processes_fresh_keys
    (ctx : Context) (s : PViewState) (rows : List RawRow)
    (hlock : ctx.lockAvailable = true)
    (hrows : ctx.processes = some rows)
    (hok : (update_processes ctx s).2.2 = none)
    (k : String) :
    (Items.get ((update_processes ctx s).2.1).items k).isSome = true ↔
      ∃ r ∈ rows, decodeId r = some k := by
  rcases hrec : reconcileRows s.items rows [] with ⟨newItems, err⟩
  cases err with
  | some e =>
      have hu := update_processes_of_some_err ctx s rows newItems e hlock hrows hrec
      rw [hu] at hok
      simp at hok
  | none =>
      have hu := update_processes_of_some_ok ctx s rows newItems hlock hrows hrec
      have hitems : ((update_processes ctx s).2.1).items = newItems := by
        rw [hu]
        exact update_table_items { s with items := newItems }
      rw [hitems]
      constructor
      · intro hsome
        obtain ⟨v, hv⟩ := Option.isSome_iff_exists.mp hsome
        have hmem := reconcileRows_mem s.items rows [] newItems none hrec k v hv
        cases hmem with
        | inl h => exact absurd h (by simp [Items.get])
        | inr hex =>
            obtain ⟨r, hr, qp, hd, hqid, _⟩ := hex
            refine ⟨r, hr, ?_⟩
            unfold decodeId
            rw [hd]
            simp [Except.toOption, hqid]
      · intro hex
        obtain ⟨r, hr, hid⟩ := hex
        exact reconcileRows_complete s.items rows [] newItems hrec k
          (Or.inr ⟨r, hr, hid⟩)

/-- Witness for C2: starting from a map holding X, a refresh whose fresh
rows mention only Y leaves a map containing Y and no longer containing X. -/
theorem update_processes_fresh_keys_witness :
    Items.get s1.items "X" = some pX ∧
    (Items.get ((update_processes ctxC s1).2.1).items "Y").isSome = true ∧
    Items.get ((update_processes ctxC s1).2.1).items "X" = none :=
  ⟨by decide,
    (update_processes_fresh_keys ctxC s1 [rowY] rfl rfl (by decide) "Y").mpr
      ⟨rowY, by decide, by decide⟩,
    by decide⟩

/-- Counterexample to C3 as stated: with one good fresh row (identity Y)
followed by a row whose query_id getter fails, update_processes returns the
decode error, yet the previously reconciled map (holding X) is not retained
unchanged: it now holds the partially decoded fresh rows (Y) and X is
gone. -/
theorem update_processes_decode_failure_not_atomic :
    ((update_processes ctxE sX).2.2).isSome = true ∧
    (update_processes ctxE sX).2.1.items ≠ sX.items ∧
    Items.get (update_processes ctxE sX).2.1.items "X" = none ∧
    (Items.get (update_processes ctxE sX).2.1.items "Y").isSome = true := by
  decide

/-- Claim C3 as amended: on a decode failure the refresh aborts before the
table update, so the displayed table items and selection keep showing the
last good snapshot; but the previously reconciled map is not retained: it
has already been replaced by the rows decoded before the failure, so every
identity it still holds comes from the fresh rows. -/
theorem update_processes_decode_failure_keeps_table
    (ctx : Context) (s : PViewState) (rows : List RawRow) (e : String)
    (hlock : ctx.lockAvailable = true)
    (hrows : ctx.processes = some rows)
    (herr : (update_processes ctx s).2.2 = some e) :
    (update_processes ctx s).2.1.tableItems = s.tableItems ∧
    (update_processes ctx s).2.1.tableSelected = s.tableSelected ∧
    ∀ k, (Items.get ((update_processes ctx s).2.1).items k).isSome = true →
      ∃ r ∈ rows, decodeId r = some k := by
  rcases hrec : reconcileRows s.items rows [] with ⟨newItems, err⟩
  cases err with
  | none =>
      have hu := update_processes_of_some_ok ctx s rows newItems hlock hrows hrec
      rw [hu] at herr
      simp at herr
  | some e2 =>
      have hu := update_processes_of_some_err ctx s rows newItems e2 hlock hrows hrec
      rw [hu]
      refine ⟨rfl, rfl, ?_⟩
      intro k hk
      obtain ⟨v, hv⟩ := Option.isSome_iff_exists.mp hk
      have hmem := reconcileRows_mem s.items rows [] newItems (some e2) hrec k v hv
      cases hmem with
      | inl h => exact absurd h (by simp [Items.get])
      | inr hex =>
          obtain ⟨r, hr, qp, hd, hqid, _⟩ := hex
          refine ⟨r, hr, ?_⟩
          unfold decodeId
          rw [hd]
          simp [Except.toOption, hqid]

/-- Witness for the amended C3: on the failing refresh of the
counterexample scenario, the displayed table items and selection are left
unchanged. -/
theorem update_processes_decode_failure_keeps_table_witness :
    (update_processes ctxE sX).2.1.tableItems = sX.tableItems ∧
    (update_processes ctxE sX).2.1.tableSelected = sX.tableSelected :=
  ⟨(update_processes_decode_failure_keeps_table ctxE sX [rowY, badRow]
      "no query_id" rfl rfl (by decide)).1,
    (update_processes_decode_failure_keeps_table ctxE sX [rowY, badRow]
      "no query_id" rfl rfl (by decide)).2.1⟩

/-- Counterexample to C4 as stated: when the processes slot holds none, the
previously reconciled map and the displayed table items are not retained;
both are cleared. -/
theorem update_processes_absent_input_clears :
    (update_processes ctxN sX).2.1.items = [] ∧
    (update_processes ctxN sX).2.1.items ≠ sX.items ∧
    (update_processes ctxN sX).2.1.tableItems = [] ∧
    (update_processes ctxN sX).2.1.tableItems ≠ sX.tableItems := by
  decide

/-- Claim C4 as amended: when the session state's processes slot holds no
raw row set, update_processes still runs the reconciliation with an empty
fresh row set: it returns success but empties the reconciled map and sets
the displayed table items to the empty list; only the failed-lock path
retains the previous state. -/
theorem update_processes_absent_input_frame
    (ctx : Context) (s : PViewState)
    (hlock : ctx.lockAvailable = true)
    (hnone : ctx.processes = none) :
    (update_processes ctx s).2.1.items = [] ∧
    (update_processes ctx s).2.1.tableItems = [] ∧
    (update_processes ctx s).2.2 = none := by
  have hu := update_processes_of_none ctx s hlock hnone
  rw [hu]
  refine ⟨update_table_items { s with items := [] }, ?_, rfl⟩
  rw [update_table_tableItems { s with items := [] }]
  exact tableItemsOf_nil { s with items := [] } rfl

/-- Witness for the amended C4: on the concrete state holding X with a
non-empty table, an absent-input refresh empties both. -/
theorem update_processes_absent_input_frame_witness :
    ctxN.processes = none ∧
    (update_processes ctxN sX).2.1.items = [] ∧
    (update_processes ctxN sX).2.1.tableItems = [] :=
  ⟨rfl, (update_processes_absent_input_frame ctxN sX rfl rfl).1,
    (update_processes_absent_input_frame ctxN sX rfl rfl).2.1⟩

/-- Claim C5: contention is not an error.  When try_lock fails,
update_processes returns success immediately with the context and the whole
view state (map and table) unchanged, and the poller loop submits no
refresh events on such a tick. -/
theorem update_processes_contention_skips
    (ctx : Context) (s : PViewState)
    (h : ctx.lockAvailable = false) :
    update_processes ctx s = (ctx, s, none) ∧
    poller_tick ctx.lockAvailable = [] := by
  refine ⟨update_processes_of_locked ctx s h, ?_⟩
  rw [h]
  rfl

/-- Witness for C5: a concrete contended tick leaves the state holding X
untouched and submits nothing. -/
theorem update_processes_contention_skips_witness :
    ctxL.lockAvailable = false ∧
    update_processes ctxL sX = (ctxL, sX, none) ∧
    poller_tick ctxL.lockAvailable = [] :=
  ⟨rfl, (update_processes_contention_skips ctxL sX rfl).1,
    (update_processes_contention_skips ctxL sX rfl).2⟩

/-- Claim C6: presentation filter semantics.  A row is in the rebuilt
presentation list exactly when it is a value of the reconciled map and, if a
drill-down identity is set, its parent identity equals it (independently of
the grouping flag); otherwise, if grouping is enabled, it is a top-level row
(is_initial_query); with no drill-down and no grouping, every row is
included. -/
theorem update_table_filter_mem (s : PViewState) (qp : QueryProcess) :
    qp ∈ (update_table s).tableItems ↔
      (qp ∈ Items.values s.items ∧
        match s.query_id with
        | some qid => qp.initial_query_id = qid
        | none => (s.group_by = true → qp.is_initial_query = true)) := by
  rw [update_table_tableItems]
  unfold tableItemsOf
  cases hq : s.query_id with
  | some qid => simp [List.mem_filter]
  | none =>
      rw [List.mem_filter]
      constructor
      · rintro ⟨hm, hb⟩
        refine ⟨hm, fun hg => ?_⟩
        cases hii : qp.is_initial_query
        · rw [hg, hii] at hb
          simp at hb
        · rfl
      · rintro ⟨hm, himp⟩
        refine ⟨hm, ?_⟩
        cases hg : s.group_by
        · rfl
        · rw [himp hg]
          rfl

/-- Witness for C6: over rows A (parent A, top-level), B (parent A), C
(parent C, top-level), drilling into A yields A and B and excludes C. -/
theorem update_table_filter_mem_witness :
    qpA ∈ (update_table sDrill).tableItems ∧
    qpB ∈ (update_table sDrill).tableItems ∧
    qpC ∉ (update_table sDrill).tableItems := by
  refine ⟨(update_table_filter_mem sDrill qpA).mpr ⟨by decide, rfl⟩,
    (update_table_filter_mem sDrill qpB).mpr ⟨by decide, rfl⟩, ?_⟩
  intro hc
  have h2 : qpC.initial_query_id = "A" :=
    ((update_table_filter_mem sDrill qpC).mp hc).2
  exact absurd h2 (by decide)

theorem cmpv_eq_iff {α : Type} [LinearOrder α] (x y : α) :
    cmpv x y = Ordering.eq ↔ x = y := by
  unfold cmpv
  split_ifs with h1 h2
  · exact iff_of_false (by simp) (ne_of_lt h1)
  · exact iff_of_true rfl h2
  · exact iff_of_false (by simp) h2

/-- Counterexample to C7 as stated: the row comparison does not order
identity-distinct rows that tie on the active column by their stable
identity; two distinct rows with equal elapsed values and different query
ids compare Equal on the Elapsed column (in both argument orders). -/
theorem cmp_no_identity_tiebreak :
    QueryProcess.cmpCol qa qb QueryProcessesColumn.Elapsed = Ordering.eq ∧
    QueryProcess.cmpCol qb qa QueryProcessesColumn.Elapsed = Ordering.eq ∧
    qa.query_id ≠ qb.query_id ∧ qa ≠ qb := by
  decide

/-- Claim C7 as amended: the comparison used for table ordering compares
exactly the value of the active column: two rows compare Equal on a column
precisely when their values in that column are equal, regardless of their
identities; ties are therefore not broken by stable identity, and repeated
sorts of the same rows are deterministic only because the sort applied to
the comparison is stable. -/
theorem cmp_ties_not_by_identity (a b : QueryProcess) (c : QueryProcessesColumn) :
    QueryProcess.cmpCol a b c = Ordering.eq ↔ colEq a b c := by
  cases c <;> exact cmpv_eq_iff _ _

/-- Witness for the amended C7 at the tied concrete rows. -/
theorem cmp_ties_not_by_identity_witness :
    QueryProcess.cmpCol qa qb QueryProcessesColumn.QueryId ≠ Ordering.eq ∧
    QueryProcess.cmpCol qa qb QueryProcessesColumn.Elapsed = Ordering.eq :=
  ⟨fun h => by
      have h2 : qa.query_id = qb.query_id :=
        (cmp_ties_not_by_identity qa qb QueryProcessesColumn.QueryId).mp h
      exact absurd h2 (by decide),
    (cmp_ties_not_by_identity qa qb QueryProcessesColumn.Elapsed).mpr
      (by show qa.elapsed = qb.elapsed; decide)⟩

/-- Claim C8: confirmation gating of kill.  A KillQuery command is emitted
by a step of the kill interaction only when the event is the confirmation
dialog's affirmative button and the dialog is open for that query id; the K
keypress itself and the cancel path emit nothing. -/
theorem kill_requires_confirmation (s : KillState) (e : KillEvent) (qid : String)
    (h : WorkerEvent.KillQuery qid ∈ (killStep s e).2) :
    e = KillEvent.affirm ∧ s.dialog = some qid := by
  cases e with
  | pressK sel =>
      cases sel with
      | none => simp [killStep] at h
      | some q => simp [killStep] at h
  | cancel => simp [killStep] at h
  | affirm =>
      cases hd : s.dialog with
      | none => simp [killStep, hd] at h
      | some q =>
          simp [killStep, hd] at h
          exact ⟨rfl, by rw [h]⟩

/-- Witness for C8: from a state whose dialog is open for q1, the affirm
step emits the kill command, and the theorem applied there recovers the
affirmative event and the open dialog. -/
theorem kill_requires_confirmation_witness :
    WorkerEvent.KillQuery "q1" ∈ (killStep ksOpen KillEvent.affirm).2 ∧
    (KillEvent.affirm = KillEvent.affirm ∧ ksOpen.dialog = some "q1") :=
  ⟨by decide,
    kill_requires_confirmation ksOpen KillEvent.affirm "q1" (by decide)⟩

theorem findName_iff_countPanel (sc : Screen) (k : PanelKind) :
    findName sc k k.name = true ↔ 0 < countPanel sc k := by
  unfold findName countPanel
  constructor
  · intro h
    obtain ⟨x, hx, hpx⟩ := List.any_eq_true.mp h
    have hmem : x ∈ List.filter (fun l => l.name == k.name && l.kind == k) sc.layers :=
      List.mem_filter.mpr ⟨hx, hpx⟩
    exact List.length_pos.mpr (List.ne_nil_of_mem hmem)
  · intro h
    have hne : List.filter (fun l => l.name == k.name && l.kind == k) sc.layers ≠ [] :=
      List.length_pos.mp h
    obtain ⟨x, hx⟩ := List.exists_mem_of_ne_nil _ hne
    have hm := List.mem_filter.mp hx
    exact List.any_eq_true.mpr ⟨x, hm.1, hm.2⟩

theorem show_panel_found (sc : Screen) (k : PanelKind)
    (h : findName sc k k.name = true) :
    show_panel sc k = sc := by
  unfold show_panel
  rw [h]
  rfl

theorem show_panel_not_found (sc : Screen) (k : PanelKind)
    (h : findName sc k k.name = false) :
    show_panel sc k =
      { layers := [{ name := k.name, kind := k, viewId := sc.nextViewId }]
        nextViewId := sc.nextViewId + 1 } := by
  unfold show_panel
  rw [h]
  rfl

theorem findName_fresh (sc : Screen) (k : PanelKind) :
    findName
      { layers := [{ name := k.name, kind := k, viewId := sc.nextViewId }]
        nextViewId := sc.nextViewId + 1 } k k.name = true := by
  simp [findName]

theorem countPanel_fresh (sc : Screen) (k : PanelKind) :
    countPanel
      { layers := [{ name := k.name, kind := k, viewId := sc.nextViewId }]
        nextViewId := sc.nextViewId + 1 } k = 1 := by
  simp [countPanel]

/-- Claim C9: navigation idempotence.  If an instance of a panel already
occupies the stack (found by its registered name and type), show is a
no-op: the screen, its layers and its construction counter are unchanged;
show is idempotent; and starting from a screen holding at most one instance
of the panel, calling show twice in a row leaves exactly one live instance
of the panel. -/
theorem navigation_show_idempotent (sc : Screen) (k : PanelKind) :
    (findName sc k k.name = true → show_panel sc k = sc) ∧
    show_panel (show_panel sc k) k = show_panel sc k ∧
    (countPanel sc k ≤ 1 →
      countPanel (show_panel (show_panel sc k) k) k = 1) := by
  refine ⟨show_panel_found sc k, ?_, ?_⟩
  · cases hfn : findName sc k k.name with
    | true =>
        rw [show_panel_found sc k hfn]
        exact show_panel_found sc k hfn
    | false =>
        rw [show_panel_not_found sc k hfn]
        exact show_panel_found _ k (findName_fresh sc k)
  · intro hc
    cases hfn : findName sc k k.name with
    | true =>
        rw [show_panel_found sc k hfn, show_panel_found sc k hfn]
        have h1 := (findName_iff_countPanel sc k).mp hfn
        omega
    | false =>
        rw [show_panel_not_found sc k hfn,
          show_panel_found _ k (findName_fresh sc k)]
        exact countPanel_fresh sc k

/-- Witness for C9: on the empty screen, showing the processes panel twice
leaves exactly one live processes instance, and the second show is a no-op
on the screen produced by the first. -/
theorem navigation_show_idempotent_witness :
    countPanel sc0 PanelKind.processes ≤ 1 ∧
    countPanel
      (show_panel (show_panel sc0 PanelKind.processes) PanelKind.processes)
      PanelKind.processes = 1 ∧
    show_panel (show_panel sc0 PanelKind.processes) PanelKind.processes =
      show_panel sc0 PanelKind.processes :=
  ⟨by decide,
    (navigation_show_idempotent sc0 PanelKind.processes).2.2 (by decide),
    (navigation_show_idempotent (show_panel sc0 PanelKind.processes)
      PanelKind.processes).1 (by decide)⟩

/-- Claim C10: implicit layout precondition.  layout fails its assertion for
every viewport height at most 2 (including heights 1 and 2), and for every
greater height records last_size with the height reduced by exactly 2 while
handing the original size to the inner table. -/
theorem layout_height_assertion (s : LayoutState) (size : Vec2) :
    (size.y ≤ 2 → layout s size = none) ∧
    (2 < size.y →
      layout s size =
        some { last_size := { x := size.x, y := size.y - 2 }
               tableLayoutSize := some size }) := by
  constructor
  · intro h
    have hn : ¬ 2 < size.y := by omega
    simp [layout, hn]
  · intro h
    simp [layout, h]

/-- Witness for C10: heights 1 and 2 are fatal, height 10 stores height 8
and lays out the table at the original 80 by 10. -/
theorem layout_height_assertion_witness :
    layout ls0 { x := 80, y := 1 } = none ∧
    layout ls0 { x := 80, y := 2 } = none ∧
    layout ls0 { x := 80, y := 10 } =
      some { last_size := { x := 80, y := 8 }
             tableLayoutSize := some { x := 80, y := 10 } } :=
  ⟨(layout_height_assertion ls0 { x := 80, y := 1 }).1 (by decide),
    (layout_height_assertion ls0 { x := 80, y := 2 }).1 (by decide),
    (layout_height_assertion ls0 { x := 80, y := 10 }).2 (by decide)⟩

end Chdig
